import Mathlib

/-!
Shallow embedding of `lib/thmi.py`, the LilyGo T-HMI ST7796 parallel TFT
display driver, together with theorems about its pixel codec, bus
transport, window addressing, rasterization primitives and font engine.

Bytes and packed colors are modelled as `Nat`, screen coordinates as
`Int` (Python integers), and bus activity as explicit lists of events:
a `BusWrite` records one `_write` call (optional command byte plus data
bytes), and `Ev` records the register-level activity of `_write_byte`.
-/

/-- The ST7796 column address set command code (`ST7796_CASET`). -/
def ST7796_CASET : Nat := 0x2A

/-- The ST7796 row address set command code (`ST7796_RASET`). -/
def ST7796_RASET : Nat := 0x2B

/-- The ST7796 memory write command code (`ST7796_RAMWR`). -/
def ST7796_RAMWR : Nat := 0x2C

/-- Convert red, green and blue components (0-255) into a 16-bit 565
encoding, as `color565` in `thmi.py` does (the tuple duck-typing
convenience is dropped; the three components are passed positionally). -/
def color565 (red green blue : Nat) : Nat :=
  ((red &&& 0xF8) <<< 8) ||| ((green &&& 0xFC) <<< 3) ||| (blue >>> 3)

/-- Encode a coordinate pair the way `_encode_pos` does with
`ustruct.pack(">HH", x, y)`: each value is truncated to an unsigned
16-bit field (MicroPython's `ustruct` truncates rather than raising on
out-of-range values) and laid out big-endian. -/
def encode_pos (x y : Int) : List Nat :=
  [(x % 65536).toNat / 256, (x % 65536).toNat % 256,
   (y % 65536).toNat / 256, (y % 65536).toNat % 256]

/-- Encode a packed color the way `_encode_pixel` does with
`ustruct.pack(">H", color)`: big-endian 16-bit, truncating. -/
def encode_pixel (color : Nat) : List Nat :=
  [color % 65536 / 256, color % 256]

/-- One `_write` call on the bus: an optional command byte followed by
the data bytes sent with it. -/
abbrev BusWrite := Option Nat × List Nat

/-- `THMI._set_window`, modelled as the list of `_write` calls it makes.
`width` and `height` are the device dimensions of the current rotation.
The guard is Python's chained comparison
`x0 <= x1 <= self.width and y0 <= y1 <= self.height`. -/
def set_window (width height x0 y0 x1 y1 : Int) : List BusWrite :=
  if x0 ≤ x1 ∧ x1 ≤ width ∧ y0 ≤ y1 ∧ y1 ≤ height then
    [(some ST7796_CASET, encode_pos x0 x1),
     (some ST7796_RASET, encode_pos y0 y1),
     (some ST7796_RAMWR, [])]
  else []

/-- C6: for every r, g, b in 0..255 (indeed for all naturals),
`color565` returns exactly `(r &&& 0xF8) <<< 8 ||| (g &&& 0xFC) <<< 3 |||
(b >>> 3)`; in particular `color565 255 255 255 = 0xFFFF`,
`color565 0 0 0 = 0x0000`, `color565 248 0 0 = 0xF800`, and the function
is deterministic (equal inputs give equal outputs). -/
theorem color565_spec :
    (∀ red green blue : Nat,
      color565 red green blue =
        ((red &&& 0xF8) <<< 8) ||| ((green &&& 0xFC) <<< 3) ||| (blue >>> 3))
    ∧ color565 255 255 255 = 0xFFFF
    ∧ color565 0 0 0 = 0x0000
    ∧ color565 248 0 0 = 0xF800
    ∧ (∀ r g b r2 g2 b2 : Nat, r = r2 → g = g2 → b = b2 →
        color565 r g b = color565 r2 g2 b2) := by
  refine ⟨fun _ _ _ => rfl, by decide, by decide, by decide, ?_⟩
  intro r g b r2 g2 b2 hr hg hb
  rw [hr, hg, hb]

/-- Witness for `color565_spec` at concrete inputs. -/
theorem color565_spec_witness : color565 10 20 30 = color565 10 20 30 :=
  color565_spec.2.2.2.2 10 20 30 10 20 30 rfl rfl rfl

/-- C2: a rectangle with `x0 > x1`, `y0 > y1`, `x1 > width` or
`y1 > height` makes `_set_window` issue zero bus commands; a rectangle
with `x0 ≤ x1 ≤ width` and `y0 ≤ y1 ≤ height` issues exactly the
column-address-set command with the big-endian `(x0, x1)` pair, the
row-address-set command with `(y0, y1)`, and the RAM-write command with
no data. -/
theorem set_window_spec (width height x0 y0 x1 y1 : Int) :
    ((x1 < x0 ∨ y1 < y0 ∨ width < x1 ∨ height < y1) →
      set_window width height x0 y0 x1 y1 = [])
    ∧ (x0 ≤ x1 → x1 ≤ width → y0 ≤ y1 → y1 ≤ height →
      set_window width height x0 y0 x1 y1 =
        [(some ST7796_CASET, encode_pos x0 x1),
         (some ST7796_RASET, encode_pos y0 y1),
         (some ST7796_RAMWR, [])]) := by
  constructor
  · intro h
    unfold set_window
    rw [if_neg]
    rintro ⟨h1, h2, h3, h4⟩
    rcases h with h | h | h | h <;> omega
  · intro h1 h2 h3 h4
    unfold set_window
    rw [if_pos ⟨h1, h2, h3, h4⟩]

/-- Witness for `set_window_spec`: a reversed rectangle is a no-op and a
valid rectangle produces exactly the three commands. -/
theorem set_window_spec_witness :
    set_window 320 240 5 3 2 4 = []
    ∧ set_window 320 240 1 2 3 4 =
        [(some ST7796_CASET, encode_pos 1 3),
         (some ST7796_RASET, encode_pos 2 4),
         (some ST7796_RAMWR, [])] :=
  ⟨(set_window_spec 320 240 5 3 2 4).1 (Or.inl (by norm_num)),
   (set_window_spec 320 240 1 2 3 4).2 (by norm_num) (by norm_num)
     (by norm_num) (by norm_num)⟩

/-- C10: the `_set_window` validity check has no lower bound on the
coordinates: any `x0 ≤ x1 ≤ width` and `y0 ≤ y1 ≤ height` — negative
origins included — issues the window commands, each coordinate encoded
into a big-endian 16-bit wire field as an unsigned value (reduction mod
65536). -/
theorem set_window_negative_origin (width height x0 y0 x1 y1 : Int)
    (h01 : x0 ≤ x1) (h1w : x1 ≤ width) (h02 : y0 ≤ y1) (h1h : y1 ≤ height) :
    set_window width height x0 y0 x1 y1 =
      [(some ST7796_CASET,
        [(x0 % 65536).toNat / 256, (x0 % 65536).toNat % 256,
         (x1 % 65536).toNat / 256, (x1 % 65536).toNat % 256]),
       (some ST7796_RASET,
        [(y0 % 65536).toNat / 256, (y0 % 65536).toNat % 256,
         (y1 % 65536).toNat / 256, (y1 % 65536).toNat % 256]),
       (some ST7796_RAMWR, [])] := by
  unfold set_window
  rw [if_pos ⟨h01, h1w, h02, h1h⟩]
  rfl

/-- Witness for `set_window_negative_origin`: a window with a negative
origin is not rejected; its origin is encoded two's-complement style. -/
theorem set_window_negative_origin_witness :
    set_window 320 240 (-20) (-3) 100 50 =
      [(some ST7796_CASET, [255, 236, 0, 100]),
       (some ST7796_RASET, [255, 253, 0, 50]),
       (some ST7796_RAMWR, [])] := by
  have h := set_window_negative_origin 320 240 (-20) (-3) 100 50
    (by norm_num) (by norm_num) (by norm_num) (by norm_num)
  rw [h]
  norm_num
  decide

/-- The `GPIO_OUT1_W1TC_MASK` constant: the clear-mask covering all
eight parallel data lines. -/
def GPIO_OUT1_W1TC_MASK : Nat := 0x0001E780

/-- The `GPIO_OUT1_W1TS_MASKS` table: for each byte value, the GPIO
set-mask that drives the eight parallel data lines to that byte. -/
def GPIO_OUT1_W1TS_MASKS : List Nat :=
  [0x0, 0x10000, 0x8000, 0x18000, 0x80, 0x10080, 0x8080, 0x18080,
   0x100, 0x10100, 0x8100, 0x18100, 0x180, 0x10180, 0x8180, 0x18180,
   0x200, 0x10200, 0x8200, 0x18200, 0x280, 0x10280, 0x8280, 0x18280,
   0x300, 0x10300, 0x8300, 0x18300, 0x380, 0x10380, 0x8380, 0x18380,
   0x400, 0x10400, 0x8400, 0x18400, 0x480, 0x10480, 0x8480, 0x18480,
   0x500, 0x10500, 0x8500, 0x18500, 0x580, 0x10580, 0x8580, 0x18580,
   0x600, 0x10600, 0x8600, 0x18600, 0x680, 0x10680, 0x8680, 0x18680,
   0x700, 0x10700, 0x8700, 0x18700, 0x780, 0x10780, 0x8780, 0x18780,
   0x2000, 0x12000, 0xa000, 0x1a000, 0x2080, 0x12080, 0xa080, 0x1a080,
   0x2100, 0x12100, 0xa100, 0x1a100, 0x2180, 0x12180, 0xa180, 0x1a180,
   0x2200, 0x12200, 0xa200, 0x1a200, 0x2280, 0x12280, 0xa280, 0x1a280,
   0x2300, 0x12300, 0xa300, 0x1a300, 0x2380, 0x12380, 0xa380, 0x1a380,
   0x2400, 0x12400, 0xa400, 0x1a400, 0x2480, 0x12480, 0xa480, 0x1a480,
   0x2500, 0x12500, 0xa500, 0x1a500, 0x2580, 0x12580, 0xa580, 0x1a580,
   0x2600, 0x12600, 0xa600, 0x1a600, 0x2680, 0x12680, 0xa680, 0x1a680,
   0x2700, 0x12700, 0xa700, 0x1a700, 0x2780, 0x12780, 0xa780, 0x1a780,
   0x4000, 0x14000, 0xc000, 0x1c000, 0x4080, 0x14080, 0xc080, 0x1c080,
   0x4100, 0x14100, 0xc100, 0x1c100, 0x4180, 0x14180, 0xc180, 0x1c180,
   0x4200, 0x14200, 0xc200, 0x1c200, 0x4280, 0x14280, 0xc280, 0x1c280,
   0x4300, 0x14300, 0xc300, 0x1c300, 0x4380, 0x14380, 0xc380, 0x1c380,
   0x4400, 0x14400, 0xc400, 0x1c400, 0x4480, 0x14480, 0xc480, 0x1c480,
   0x4500, 0x14500, 0xc500, 0x1c500, 0x4580, 0x14580, 0xc580, 0x1c580,
   0x4600, 0x14600, 0xc600, 0x1c600, 0x4680, 0x14680, 0xc680, 0x1c680,
   0x4700, 0x14700, 0xc700, 0x1c700, 0x4780, 0x14780, 0xc780, 0x1c780,
   0x6000, 0x16000, 0xe000, 0x1e000, 0x6080, 0x16080, 0xe080, 0x1e080,
   0x6100, 0x16100, 0xe100, 0x1e100, 0x6180, 0x16180, 0xe180, 0x1e180,
   0x6200, 0x16200, 0xe200, 0x1e200, 0x6280, 0x16280, 0xe280, 0x1e280,
   0x6300, 0x16300, 0xe300, 0x1e300, 0x6380, 0x16380, 0xe380, 0x1e380,
   0x6400, 0x16400, 0xe400, 0x1e400, 0x6480, 0x16480, 0xe480, 0x1e480,
   0x6500, 0x16500, 0xe500, 0x1e500, 0x6580, 0x16580, 0xe580, 0x1e580,
   0x6600, 0x16600, 0xe600, 0x1e600, 0x6680, 0x16680, 0xe680, 0x1e680,
   0x6700, 0x16700, 0xe700, 0x1e700, 0x6780, 0x16780, 0xe780, 0x1e780]

/-- Register-level bus activity of `_write_byte`: a write to the GPIO
set register, a write to the GPIO clear register, or one RMT strobe
pulse (`self.rmt.write_pulses(PULSE, self.pulse)`). -/
inductive Ev where
  | regSet (mask : Nat)
  | regClear (mask : Nat)
  | strobe
deriving DecidableEq, Repr

/-- The transport state: the cached last-driven byte (`self.last`,
`None` at construction). -/
structure BusState where
  last : Option Nat
deriving DecidableEq, Repr

/-- `THMI._write_byte`: when the byte differs from the cached last byte,
drive the data lines (a set-mask write, then the complement-mask clear)
and update the cache; then, unconditionally, emit exactly one strobe
pulse. -/
def write_byte (st : BusState) (b : Nat) : BusState × List Ev :=
  if some b ≠ st.last then
    let out1 := GPIO_OUT1_W1TS_MASKS.getD b 0
    (⟨some b⟩,
     [Ev.regSet out1, Ev.regClear (out1 ^^^ GPIO_OUT1_W1TC_MASK), Ev.strobe])
  else (st, [Ev.strobe])

/-- Stream a byte sequence through `_write_byte`, threading the cache. -/
def writeBytes (st : BusState) : List Nat → BusState × List Ev
  | [] => (st, [])
  | b :: bs =>
    let r := write_byte st b
    let rest := writeBytes r.1 bs
    (rest.1, r.2 ++ rest.2)

/-- Whether an event is a strobe pulse. -/
def isStrobe : Ev → Bool
  | Ev.strobe => true
  | _ => false

/-- The number of strobe pulses in an event list. -/
def strobeCount (es : List Ev) : Nat := (es.filter isStrobe).length

theorem strobeCount_append (a b : List Ev) :
    strobeCount (a ++ b) = strobeCount a + strobeCount b := by
  simp [strobeCount, List.filter_append]

theorem write_byte_one_strobe (st : BusState) (b : Nat) :
    strobeCount (write_byte st b).2 = 1 := by
  unfold write_byte
  split <;> simp [strobeCount, isStrobe]

theorem writeBytes_strobes (st : BusState) (bs : List Nat) :
    strobeCount (writeBytes st bs).2 = bs.length := by
  induction bs generalizing st with
  | nil => rfl
  | cons b bs ih =>
    simp only [writeBytes, strobeCount_append, write_byte_one_strobe, ih,
      List.length_cons]
    omega

/-- C8: streaming one byte through `_write_byte` emits exactly one
strobe pulse unconditionally; when the byte equals the cached last byte
nothing else happens, and when it differs the data-line registers get a
set-mask write followed by its complement-mask clear and the cache is
updated; consequently streaming n bytes emits exactly n strobes. -/
theorem write_byte_spec :
    (∀ (st : BusState) (b : Nat), strobeCount (write_byte st b).2 = 1)
    ∧ (∀ (st : BusState) (b : Nat), st.last = some b →
        write_byte st b = (st, [Ev.strobe]))
    ∧ (∀ (st : BusState) (b : Nat), st.last ≠ some b →
        write_byte st b =
          (⟨some b⟩,
           [Ev.regSet (GPIO_OUT1_W1TS_MASKS.getD b 0),
            Ev.regClear (GPIO_OUT1_W1TS_MASKS.getD b 0 ^^^ GPIO_OUT1_W1TC_MASK),
            Ev.strobe]))
    ∧ (∀ (st : BusState) (bs : List Nat),
        strobeCount (writeBytes st bs).2 = bs.length) := by
  refine ⟨write_byte_one_strobe, ?_, ?_, writeBytes_strobes⟩
  · intro st b h
    unfold write_byte
    rw [if_neg (by simp [h])]
  · intro st b h
    unfold write_byte
    rw [if_pos (Ne.symm h)]

/-- Witness for `write_byte_spec`: a cache hit strobes without touching
the data lines; a cache miss drives the lines and strobes. -/
theorem write_byte_spec_witness :
    write_byte ⟨some 5⟩ 5 = (⟨some 5⟩, [Ev.strobe])
    ∧ write_byte ⟨some 5⟩ 7 =
        (⟨some 7⟩, [Ev.regSet 0x18080, Ev.regClear 0x6700, Ev.strobe]) := by
  constructor
  · exact write_byte_spec.2.1 ⟨some 5⟩ 5 rfl
  · rw [write_byte_spec.2.2.1 ⟨some 5⟩ 7 (by decide)]
    decide

/-- The pixel loop of `fill_rect`: n iterations, each passing the high
byte and then the low byte to `_write_byte`. -/
def fillRectBytes (hi lo : Nat) : Nat → List Nat
  | 0 => []
  | n + 1 => hi :: lo :: fillRectBytes hi lo n

/-- `THMI.fill_rect`, modelled as the `_write` calls of its
`_set_window` prologue paired with the byte sequence its loop passes to
`_write_byte`; the loop runs `width * height` times (Python's `range`
is empty when the product is negative, hence `Int.toNat`). -/
def fill_rect (width height x y w h : Int) (color : Nat) :
    List BusWrite × List Nat :=
  (set_window width height x y (x + w - 1) (y + h - 1),
   fillRectBytes (color >>> 8) (color &&& 0xFF) (w * h).toNat)

theorem fillRectBytes_eq_join (hi lo : Nat) (n : Nat) :
    fillRectBytes hi lo n = List.flatten (List.replicate n [hi, lo]) := by
  induction n with
  | zero => rfl
  | succ n ih => simp [fillRectBytes, List.replicate_succ, ih]

theorem fillRectBytes_length (hi lo : Nat) (n : Nat) :
    (fillRectBytes hi lo n).length = 2 * n := by
  induction n with
  | zero => rfl
  | succ n ih => simp [fillRectBytes, ih]; omega

/-- C7: for w, h ≥ 0, `fill_rect` streams exactly w*h byte pairs — each
the color's high byte `color >>> 8` then its low byte `color &&& 0xFF`,
whatever the color — after setting the window to
`(x, y, x+w-1, y+h-1)`. -/
theorem fill_rect_spec (width height x y w h : Int) (color : Nat)
    (hw : 0 ≤ w) (hh : 0 ≤ h) :
    (fill_rect width height x y w h color).2 =
      List.flatten (List.replicate (w * h).toNat [color >>> 8, color &&& 0xFF])
    ∧ ((fill_rect width height x y w h color).2).length = 2 * (w * h).toNat
    ∧ (fill_rect width height x y w h color).1 =
      set_window width height x y (x + w - 1) (y + h - 1) :=
  ⟨fillRectBytes_eq_join _ _ _, fillRectBytes_length _ _ _, rfl⟩

/-- Witness for `fill_rect_spec`: a 3×2 red fill streams six big-endian
pixel pairs. -/
theorem fill_rect_spec_witness :
    (fill_rect 320 240 1 2 3 2 0xF800).2 =
      [0xF8, 0, 0xF8, 0, 0xF8, 0, 0xF8, 0, 0xF8, 0, 0xF8, 0]
    ∧ ((fill_rect 320 240 1 2 3 2 0xF800).2).length = 12 := by
  have h := fill_rect_spec 320 240 1 2 3 2 0xF800 (by norm_num) (by norm_num)
  refine ⟨?_, ?_⟩
  · rw [h.1]; decide
  · rw [h.2.1]; decide

/-- The prologue of `THMI.line`: the steep test (`abs (y1 - y0) > abs
(x1 - x0)`), the axis swap when steep, and the endpoint swap when
`x0 > x1`; returns `(steep, x0, y0, x1, y1)`. -/
def lineSetup (px0 py0 px1 py1 : Int) : Bool × Int × Int × Int × Int :=
  let steep : Bool := decide (|py1 - py0| > |px1 - px0|)
  let p := if steep then (py0, px0, py1, px1) else (px0, py0, px1, py1)
  match p with
  | (x0, y0, x1, y1) =>
    if x0 > x1 then (steep, x1, y1, x0, y0) else (steep, x0, y0, x1, y1)

/-- The while-loop of `THMI.line`: iterate while `x0 ≤ x1`, plot
`(y0, x0)` when steep else `(x0, y0)`, subtract `dy` from the error
term and, when it turns negative, step `y0` and add `dx` back. The
loop terminates because `x0` grows by one each pass; the fuel argument
makes that explicit and is always sufficient at the call site. -/
def lineLoop (steep : Bool) (x1 dx dy ystep : Int) :
    Nat → Int → Int → Int → List (Int × Int)
  | 0, _, _, _ => []
  | fuel + 1, x0, y0, err =>
    if x0 ≤ x1 then
      (if steep then (y0, x0) else (x0, y0)) ::
        (if err - dy < 0 then
          lineLoop steep x1 dx dy ystep fuel (x0 + 1) (y0 + ystep) (err - dy + dx)
        else
          lineLoop steep x1 dx dy ystep fuel (x0 + 1) y0 (err - dy))
    else []

/-- `THMI.line`: the sequence of pixels plotted, in order. After the
prologue `x0 ≤ x1`, so the Python floor division `dx // 2` agrees with
`Int` division on the nonnegative `dx`. -/
def linePixels (px0 py0 px1 py1 : Int) : List (Int × Int) :=
  match lineSetup px0 py0 px1 py1 with
  | (steep, x0, y0, x1, y1) =>
    lineLoop steep x1 (x1 - x0) |y1 - y0| (if y0 < y1 then (1 : Int) else -1)
      (x1 - x0 + 1).toNat x0 y0 ((x1 - x0) / 2)

/-- The iteration of the spec's documented Bresenham algorithm: a
counted loop over the `x1 - x0 + 1` values `x0..=x1`, plotting
`(y, x)` if steep else `(x, y)` and applying the error update. -/
def bresIter (steep : Bool) (dx dy ystep : Int) :
    Nat → Int → Int → Int → List (Int × Int)
  | 0, _, _, _ => []
  | count + 1, x, y, err =>
    (if steep then (y, x) else (x, y)) ::
      (if err - dy < 0 then
        bresIter steep dx dy ystep count (x + 1) (y + ystep) (err - dy + dx)
      else
        bresIter steep dx dy ystep count (x + 1) y (err - dy))

/-- The documented Bresenham algorithm as the spec words it: the same
steep test and swaps, `dx = x1-x0`, `dy = |y1-y0|`, `err = dx/2`,
`ystep = +1 if y0 < y1 else -1`, then the counted iteration from `x0`
to `x1` inclusive. -/
def bresenhamSpec (px0 py0 px1 py1 : Int) : List (Int × Int) :=
  match lineSetup px0 py0 px1 py1 with
  | (steep, x0, y0, x1, y1) =>
    bresIter steep (x1 - x0) |y1 - y0| (if y0 < y1 then (1 : Int) else -1)
      (x1 - x0 + 1).toNat x0 y0 ((x1 - x0) / 2)

theorem lineSetup_le (px0 py0 px1 py1 : Int) :
    (lineSetup px0 py0 px1 py1).2.1 ≤ (lineSetup px0 py0 px1 py1).2.2.2.1 := by
  simp only [lineSetup]
  by_cases hs : |py1 - py0| > |px1 - px0| <;>
    simp [hs] <;> split <;> simp <;> omega

theorem lineLoop_eq_bresIter (steep : Bool) (dx dy ystep : Int) :
    ∀ (n : Nat) (x y err x1 : Int), x1 = x + n - 1 →
      lineLoop steep x1 dx dy ystep n x y err =
        bresIter steep dx dy ystep n x y err := by
  intro n
  induction n with
  | zero => intro x y err x1 _; rfl
  | succ n ih =>
    intro x y err x1 h
    have hx : x ≤ x1 := by omega
    simp only [lineLoop, bresIter, if_pos hx]
    congr 1
    split
    · exact ih (x + 1) (y + ystep) _ x1 (by omega)
    · exact ih (x + 1) y _ x1 (by omega)

theorem lineLoop_toNat (steep : Bool) (dx dy ystep : Int)
    (x0 x1 y0 err : Int) (hle : x0 ≤ x1) :
    lineLoop steep x1 dx dy ystep (x1 - x0 + 1).toNat x0 y0 err =
      bresIter steep dx dy ystep (x1 - x0 + 1).toNat x0 y0 err := by
  apply lineLoop_eq_bresIter
  have h : ((x1 - x0 + 1).toNat : Int) = x1 - x0 + 1 :=
    Int.toNat_of_nonneg (by omega)
  omega

/-- C4: for every pair of endpoints, `line` plots exactly the pixel
sequence of the documented integer Bresenham algorithm, and
`line 0 0 5 2` plots exactly (0,0),(1,0),(2,1),(3,1),(4,2),(5,2) in
that order. -/
theorem line_spec :
    (∀ px0 py0 px1 py1 : Int,
      linePixels px0 py0 px1 py1 = bresenhamSpec px0 py0 px1 py1)
    ∧ linePixels 0 0 5 2 = [(0, 0), (1, 0), (2, 1), (3, 1), (4, 2), (5, 2)] := by
  constructor
  · intro px0 py0 px1 py1
    have hle := lineSetup_le px0 py0 px1 py1
    unfold linePixels bresenhamSpec
    rcases hset : lineSetup px0 py0 px1 py1 with ⟨steep, x0, y0, x1, y1⟩
    rw [hset] at hle
    simp only at hle
    exact lineLoop_toNat _ _ _ _ _ _ _ _ hle
  · decide

/-- A fixed-bitmap font asset: pixel WIDTH (a multiple of 8), pixel
HEIGHT, code-point range [FIRST, LAST), and the packed MSB-first
row-major glyph bit array FONT. -/
structure FixedFont where
  WIDTH : Nat
  HEIGHT : Nat
  FIRST : Nat
  LAST : Nat
  FONT : List Nat
deriving Repr, DecidableEq

/-- The inner bit loop of `THMI.text`: expand the eight bits of one
font byte MSB-first (`chr_data & 0x80` test, then `chr_data <<= 1`)
into 2-byte fg/bg pixels, high byte first. -/
def expandBits (fgHi fgLo bgHi bgLo : Nat) : Nat → Nat → List Nat
  | 0, _ => []
  | k + 1, chr_data =>
    (if chr_data &&& 0x80 ≠ 0 then [fgHi, fgLo] else [bgHi, bgLo])
      ++ expandBits fgHi fgLo bgHi bgLo k (chr_data <<< 1)

/-- The glyph decode of `THMI.text`: `HEIGHT * (WIDTH/8)` consecutive
font bytes starting at `chr_idx`, each expanded to eight 2-byte
pixels, row-major. -/
def textGlyphBuffer (font : FixedFont) (fgHi fgLo bgHi bgLo chr_idx : Nat) :
    List Nat :=
  ((List.range (font.HEIGHT * (font.WIDTH / 8))).map
    (fun k => expandBits fgHi fgLo bgHi bgLo 8 (font.FONT.getD (chr_idx + k) 0))).flatten

/-- One character step of `THMI.text`: when the code point lies in
[FIRST, LAST) and the glyph box fits the screen at the cursor, decode
the glyph, blit it and advance the cursor by WIDTH; otherwise the whole
body — blit and cursor advance included — is skipped. Returns the new
cursor and the `_write` calls made. -/
def textChar (width height : Int) (font : FixedFont) (color background : Nat)
    (ch : Nat) (x0 y0 : Int) : Int × List BusWrite :=
  if font.FIRST ≤ ch ∧ ch < font.LAST
      ∧ x0 + (font.WIDTH : Int) ≤ width ∧ y0 + (font.HEIGHT : Int) ≤ height then
    let buffer := textGlyphBuffer font (color >>> 8) (color &&& 0xFF)
      (background >>> 8) (background &&& 0xFF)
      ((ch - font.FIRST) * (font.HEIGHT * (font.WIDTH / 8)))
    let to_col := x0 + (font.WIDTH : Int) - 1
    let to_row := y0 + (font.HEIGHT : Int) - 1
    (x0 + (font.WIDTH : Int),
     if to_col < width ∧ to_row < height then
       set_window width height x0 y0 to_col to_row ++ [(none, buffer)]
     else [])
  else (x0, [])

/-- `THMI.text` over a list of code points (Python iterates the string
and takes `ord` of each character): thread the cursor through
`textChar`, concatenating the bus activity. -/
def textRun (width height : Int) (font : FixedFont) (color background : Nat) :
    List Nat → Int → Int → Int × List BusWrite
  | [], x0, _ => (x0, [])
  | ch :: rest, x0, y0 =>
    let r := textChar width height font color background ch x0 y0
    let rr := textRun width height font color background rest r.1 y0
    (rr.1, r.2 ++ rr.2)

/-- C1 as stated is false on the code: with an 8×8 single-glyph font on
a 240-wide screen, the character 'A' at cursor 239 has its glyph box
off screen; it is dropped, but the cursor stays at 239 instead of
advancing to 239 + 8 as the claim requires. -/
theorem text_offscreen_advance_cex :
    (textChar 240 320 ⟨8, 8, 65, 66, List.replicate 8 0⟩ 0xFFFF 0 65 239 0).2 = []
    ∧ (textChar 240 320 ⟨8, 8, 65, 66, List.replicate 8 0⟩ 0xFFFF 0 65 239 0).1 = 239
    ∧ (239 : Int) ≠ 239 + 8 := by
  refine ⟨by decide, by decide, by norm_num⟩

/-- C1 amended: a character whose glyph box would exceed the screen at
the current cursor is silently dropped — nothing is sent on the bus —
and the cursor does not advance, so subsequent characters are laid out
from the unchanged cursor position. -/
theorem text_offscreen_drop (width height : Int) (font : FixedFont)
    (color background ch : Nat) (x0 y0 : Int)
    (h : width < x0 + (font.WIDTH : Int) ∨ height < y0 + (font.HEIGHT : Int)) :
    textChar width height font color background ch x0 y0 = (x0, [])
    ∧ ∀ rest : List Nat,
        textRun width height font color background (ch :: rest) x0 y0 =
          textRun width height font color background rest x0 y0 := by
  have hchar : textChar width height font color background ch x0 y0 = (x0, []) := by
    unfold textChar
    rw [if_neg]
    rintro ⟨-, -, h3, h4⟩
    rcases h with h | h <;> omega
  refine ⟨hchar, fun rest => ?_⟩
  simp only [textRun, hchar, List.nil_append]

/-- Witness for `text_offscreen_drop` at the counterexample's input. -/
theorem text_offscreen_drop_witness :
    textChar 240 320 ⟨8, 8, 65, 66, List.replicate 8 0⟩ 0xFFFF 0 65 239 0 = (239, [])
    ∧ textRun 240 320 ⟨8, 8, 65, 66, List.replicate 8 0⟩ 0xFFFF 0 [65, 66] 239 0 =
        textRun 240 320 ⟨8, 8, 65, 66, List.replicate 8 0⟩ 0xFFFF 0 [66] 239 0 :=
  ⟨(text_offscreen_drop 240 320 ⟨8, 8, 65, 66, List.replicate 8 0⟩ 0xFFFF 0 65 239 0
      (Or.inl (by norm_num))).1,
   (text_offscreen_drop 240 320 ⟨8, 8, 65, 66, List.replicate 8 0⟩ 0xFFFF 0 65 239 0
      (Or.inl (by norm_num))).2 [66]⟩

/-- A converted true-type font asset: HEIGHT, MAX_WIDTH, the per-entry
byte count OFFSET_WIDTH of the big-endian offset table, the supported
characters MAP, the parallel byte tables OFFSETS and WIDTHS, and the
shared packed 1-bit-per-pixel glyph bitstream BITMAPS. -/
structure VarFont where
  HEIGHT : Nat
  MAX_WIDTH : Nat
  OFFSET_WIDTH : Nat
  MAP : List Char
  OFFSETS : List Nat
  WIDTHS : List Nat
  BITMAPS : List Nat
deriving Repr, DecidableEq

/-- The offset accumulation of `THMI.write`: read `OFFSETS[offset]`,
then, when `OFFSET_WIDTH` exceeds 1 (and then 2), shift left by 8 and
add the next byte. -/
def glyphOffsetBits (font : VarFont) (char_index : Nat) : Nat :=
  let offset := char_index * font.OFFSET_WIDTH
  let b0 := font.OFFSETS.getD offset 0
  let b1 :=
    if 1 < font.OFFSET_WIDTH then (b0 <<< 8) + font.OFFSETS.getD (offset + 1) 0
    else b0
  if 2 < font.OFFSET_WIDTH then (b1 <<< 8) + font.OFFSETS.getD (offset + 2) 0
  else b1

/-- The spec's wording of the same accumulation: fold the character's
`OFFSET_WIDTH` bytes of OFFSETS big-endian, each byte shifting the
accumulator left by 8 and being added. -/
def glyphOffsetBitsSpec (font : VarFont) (char_index : Nat) : Nat :=
  (List.range font.OFFSET_WIDTH).foldl
    (fun acc k =>
      (acc <<< 8) + font.OFFSETS.getD (char_index * font.OFFSET_WIDTH + k) 0) 0

/-- The pixel loop of `THMI.write`: decode `n` bits MSB-first from the
shared bitstream starting at bit `bs_bit`, one 2-byte fg/bg pixel per
bit, high byte first. -/
def bitPixels (bitmaps : List Nat) (fgHi fgLo bgHi bgLo : Nat) :
    Nat → Nat → List Nat
  | _, 0 => []
  | bs_bit, n + 1 =>
    (if bitmaps.getD (bs_bit / 8) 0 &&& (1 <<< (7 - bs_bit % 8)) ≠ 0
      then [fgHi, fgLo] else [bgHi, bgLo])
      ++ bitPixels bitmaps fgHi fgLo bgHi bgLo (bs_bit + 1) n

/-- One character step of `THMI.write`: look the character up in MAP
(Python's `MAP.index`; a miss raises ValueError, caught to skip the
whole body), decode `char_width * HEIGHT` bits starting at the
accumulated offset, blit only when the glyph box fits the screen, and
advance the cursor by the character's width regardless. -/
def writeChar (width height : Int) (font : VarFont) (fg bg : Nat)
    (character : Char) (x y : Int) : Int × List BusWrite :=
  match font.MAP.indexOf? character with
  | none => (x, [])
  | some char_index =>
    let bs_bit := glyphOffsetBits font char_index
    let char_width := font.WIDTHS.getD char_index 0
    let buffer := bitPixels font.BITMAPS ((fg &&& 0xFF00) >>> 8) (fg &&& 0xFF)
      ((bg &&& 0xFF00) >>> 8) (bg &&& 0xFF) bs_bit (char_width * font.HEIGHT)
    let to_col := x + (char_width : Int) - 1
    let to_row := y + (font.HEIGHT : Int) - 1
    (x + (char_width : Int),
     if to_col < width ∧ to_row < height then
       set_window width height x y to_col to_row ++ [(none, buffer)]
     else [])

/-- `THMI.write` over the string's characters: thread the cursor
through `writeChar`, concatenating the bus activity. -/
def writeRun (width height : Int) (font : VarFont) (fg bg : Nat) :
    List Char → Int → Int → Int × List BusWrite
  | [], x, _ => (x, [])
  | c :: rest, x, y =>
    let r := writeChar width height font fg bg c x y
    let rr := writeRun width height font fg bg rest r.1 y
    (rr.1, r.2 ++ rr.2)

/-- `THMI.write_width`: sum the WIDTHS entries of the characters found
in MAP; a missed lookup contributes nothing. -/
def write_width (font : VarFont) : List Char → Nat
  | [] => 0
  | c :: rest =>
    (match font.MAP.indexOf? c with
     | some i => font.WIDTHS.getD i 0
     | none => 0) + write_width font rest

/-- The spec's width measure: the sum over the string's characters of
the WIDTHS entry at the character's MAP index, absent characters
contributing zero. -/
def measureWidthSpec (font : VarFont) (s : List Char) : Nat :=
  (s.map (fun c =>
    match font.MAP.indexOf? c with
    | some i => font.WIDTHS.getD i 0
    | none => 0)).sum

theorem glyphOffsetBits_eq_spec (font : VarFont)
    (h1 : 1 ≤ font.OFFSET_WIDTH) (h3 : font.OFFSET_WIDTH ≤ 3) (i : Nat) :
    glyphOffsetBits font i = glyphOffsetBitsSpec font i := by
  have h : font.OFFSET_WIDTH = 1 ∨ font.OFFSET_WIDTH = 2 ∨ font.OFFSET_WIDTH = 3 := by
    omega
  rcases h with h | h | h <;>
    simp [glyphOffsetBits, glyphOffsetBitsSpec, h, List.range_succ]

/-- C3: for a character present in MAP, `write` obtains the glyph's
starting bit offset by accumulating its `OFFSET_WIDTH` (1 to 3) bytes
of OFFSETS big-endian; when the glyph box would exceed the screen the
blit is skipped but the cursor advance is not; the cursor advances by
that character's WIDTHS entry in every case. -/
theorem write_char_spec (width height : Int) (font : VarFont) (fg bg : Nat)
    (c : Char) (x y : Int) (i : Nat)
    (hmap : font.MAP.indexOf? c = some i)
    (h1 : 1 ≤ font.OFFSET_WIDTH) (h3 : font.OFFSET_WIDTH ≤ 3) :
    glyphOffsetBits font i = glyphOffsetBitsSpec font i
    ∧ (writeChar width height font fg bg c x y).1 =
        x + (font.WIDTHS.getD i 0 : Int)
    ∧ ((width ≤ x + (font.WIDTHS.getD i 0 : Int) - 1
        ∨ height ≤ y + (font.HEIGHT : Int) - 1) →
       (writeChar width height font fg bg c x y).2 = []) := by
  refine ⟨glyphOffsetBits_eq_spec font h1 h3 i, ?_, ?_⟩
  · simp only [writeChar, hmap]
  · intro h
    simp only [writeChar, hmap]
    rw [if_neg]
    rintro ⟨ha, hb⟩
    rcases h with h | h <;> omega

/-- Witness for `write_char_spec`: a one-character font whose glyph box
overflows a 10×10 screen at x = 9 skips the blit but still advances the
cursor by the character's width. -/
theorem write_char_spec_witness :
    glyphOffsetBits ⟨2, 4, 2, ['A'], [0, 0], [4], [0xFF]⟩ 0 =
      glyphOffsetBitsSpec ⟨2, 4, 2, ['A'], [0, 0], [4], [0xFF]⟩ 0
    ∧ (writeChar 10 10 ⟨2, 4, 2, ['A'], [0, 0], [4], [0xFF]⟩ 0xFFFF 0 'A' 9 0).1 = 13
    ∧ (writeChar 10 10 ⟨2, 4, 2, ['A'], [0, 0], [4], [0xFF]⟩ 0xFFFF 0 'A' 9 0).2 = [] := by
  have h := write_char_spec 10 10 ⟨2, 4, 2, ['A'], [0, 0], [4], [0xFF]⟩ 0xFFFF 0 'A' 9 0 0
    (by decide) (by norm_num) (by norm_num)
  exact ⟨h.1, by rw [h.2.1]; decide, h.2.2 (Or.inl (by decide))⟩

/-- C5: `write_width` equals the sum over the string's characters of
the WIDTHS entry of each character present in MAP (absent characters
contribute zero), is 0 on the empty string, and equals the total
cursor advance that `write` performs on the same string. -/
theorem write_width_spec (font : VarFont) (s : List Char)
    (width height : Int) (fg bg : Nat) (x y : Int) :
    write_width font s = measureWidthSpec font s
    ∧ write_width font [] = 0
    ∧ (writeRun width height font fg bg s x y).1 =
        x + (write_width font s : Int) := by
  refine ⟨?_, rfl, ?_⟩
  · induction s with
    | nil => rfl
    | cons c rest ih => simp [write_width, measureWidthSpec, ih]
  · induction s generalizing x with
    | nil => simp [writeRun, write_width]
    | cons c rest ih =>
      simp only [writeRun, write_width]
      rcases hidx : font.MAP.indexOf? c with _ | i <;>
        simp only [writeChar, hidx] <;> rw [ih] <;> push_cast <;> ring

/-- An indexed bitmap asset: WIDTH, HEIGHT, bits-per-pixel BPP, the
PALETTE of packed colors, and the packed MSB-first index bitstream
BITMAP. -/
structure Bitmap where
  WIDTH : Nat
  HEIGHT : Nat
  BPP : Nat
  PALETTE : List Nat
  BITMAP : List Nat
deriving Repr, DecidableEq

/-- The inner loop of `THMI.bitmap`: accumulate BPP bits MSB-first from
the packed bitstream starting at bit `bs_bit` into a palette index
(`color_index <<= 1; color_index |= bit`). -/
def colorIndexLoop (bm : List Nat) (acc bs_bit : Nat) : Nat → Nat
  | 0 => acc
  | k + 1 =>
    colorIndexLoop bm
      ((acc <<< 1) |||
        (if bm.getD (bs_bit / 8) 0 &&& (1 <<< (7 - bs_bit % 8)) ≠ 0 then 1 else 0))
      (bs_bit + 1) k

/-- The palette index of the pixel whose first bit is `bs_bit`. -/
def colorIndexAt (bmp : Bitmap) (bs_bit : Nat) : Nat :=
  colorIndexLoop bmp.BITMAP 0 bs_bit bmp.BPP

/-- The buffer fill of `THMI.bitmap`: `n` pixels starting at bit
`bs_bit`; each pixel's palette color enters the buffer LOW byte at the
even offset and HIGH byte at the odd offset
(`buffer[i + 1] = (color & 0xFF00) >> 8; buffer[i] = color & 0xFF`). -/
def bitmapBuffer (bmp : Bitmap) : Nat → Nat → List Nat
  | _, 0 => []
  | bs_bit, n + 1 =>
    ((bmp.PALETTE.getD (colorIndexAt bmp bs_bit) 0) &&& 0xFF) ::
      (((bmp.PALETTE.getD (colorIndexAt bmp bs_bit) 0) &&& 0xFF00) >>> 8) ::
      bitmapBuffer bmp (bs_bit + bmp.BPP) n

/-- `THMI.bitmap`: decode frame `index` into its pixel buffer and blit
it when the bitmap box fits on screen, else silently skip the whole
draw. -/
def bitmapOp (width height : Int) (bmp : Bitmap) (x y : Int) (index : Nat) :
    List BusWrite :=
  let bitmap_size := bmp.HEIGHT * bmp.WIDTH
  let bs_bit := if 0 < index then bmp.BPP * bitmap_size * index else 0
  let buffer := bitmapBuffer bmp bs_bit bitmap_size
  let to_col := x + (bmp.WIDTH : Int) - 1
  let to_row := y + (bmp.HEIGHT : Int) - 1
  if to_col < width ∧ to_row < height then
    set_window width height x y to_col to_row ++ [(none, buffer)]
  else []

theorem nat_and_255 (c : Nat) : c &&& 0xFF = c % 256 := by
  have h := Nat.and_pow_two_sub_one_eq_mod c 8
  norm_num at h
  exact h

theorem nat_and_ff00_shr (c : Nat) : (c &&& 0xFF00) >>> 8 = c / 256 % 256 := by
  have h2 : (0xFF00 : Nat) = 255 <<< 8 := by norm_num [Nat.shiftLeft_eq]
  have h1 : (c &&& 0xFF00) >>> 8 = (c >>> 8) &&& 255 := by
    apply Nat.eq_of_testBit_eq
    intro i
    rw [Nat.testBit_shiftRight, Nat.testBit_and, Nat.testBit_and,
      Nat.testBit_shiftRight]
    have h3 : Nat.testBit 0xFF00 (8 + i) = Nat.testBit 255 i := by
      rw [h2, Nat.testBit_shiftLeft]
      simp
    rw [h3]
  rw [h1, nat_and_255, Nat.shiftRight_eq_div_pow]

theorem bitmapBuffer_get (bmp : Bitmap) :
    ∀ (n p bs_bit : Nat), p < n →
      (bitmapBuffer bmp bs_bit n).get? (2 * p) =
        some ((bmp.PALETTE.getD (colorIndexAt bmp (bs_bit + p * bmp.BPP)) 0) &&& 0xFF)
      ∧ (bitmapBuffer bmp bs_bit n).get? (2 * p + 1) =
        some (((bmp.PALETTE.getD (colorIndexAt bmp (bs_bit + p * bmp.BPP)) 0) &&& 0xFF00) >>> 8) := by
  intro n
  induction n with
  | zero => intro p bs h; omega
  | succ n ih =>
    intro p bs h
    cases p with
    | zero => simp [bitmapBuffer]
    | succ p =>
      have hih := ih p (bs + bmp.BPP) (by omega)
      rw [show bs + (p + 1) * bmp.BPP = bs + bmp.BPP + p * bmp.BPP by ring]
      constructor
      · rw [show 2 * (p + 1) = 2 * p + 1 + 1 by ring]
        simp only [bitmapBuffer, List.get?_cons_succ]
        exact hih.1
      · rw [show 2 * (p + 1) + 1 = (2 * p + 1) + 1 + 1 by ring]
        simp only [bitmapBuffer, List.get?_cons_succ]
        exact hih.2

/-- C9: `bitmap` writes each pixel's looked-up palette color into its
output buffer low byte first — the byte at the even offset is
`color &&& 0xFF` and the following odd offset holds
`(color &&& 0xFF00) >>> 8` — the reverse of the big-endian pair
`_encode_pixel` produces, so the streamed pair agrees with the
big-endian operations exactly when the color's high and low bytes are
equal. -/
theorem bitmap_little_endian (bmp : Bitmap) (bs_bit n p : Nat) (hp : p < n) :
    ((bitmapBuffer bmp bs_bit n).get? (2 * p) =
      some ((bmp.PALETTE.getD (colorIndexAt bmp (bs_bit + p * bmp.BPP)) 0) &&& 0xFF))
    ∧ ((bitmapBuffer bmp bs_bit n).get? (2 * p + 1) =
      some (((bmp.PALETTE.getD (colorIndexAt bmp (bs_bit + p * bmp.BPP)) 0) &&& 0xFF00) >>> 8))
    ∧ (∀ color : Nat,
        [color &&& 0xFF, (color &&& 0xFF00) >>> 8] = (encode_pixel color).reverse
        ∧ ([color &&& 0xFF, (color &&& 0xFF00) >>> 8] = encode_pixel color ↔
            color / 256 % 256 = color % 256)) := by
  refine ⟨(bitmapBuffer_get bmp n p bs_bit hp).1, (bitmapBuffer_get bmp n p bs_bit hp).2, ?_⟩
  intro color
  have hA := nat_and_255 color
  have hB := nat_and_ff00_shr color
  have hC : color % 65536 / 256 = color / 256 % 256 := by omega
  constructor
  · simp [encode_pixel, hA, hB, hC]
  · rw [hA, hB]
    simp only [encode_pixel, hC, List.cons.injEq, and_true]
    constructor
    · rintro ⟨h1, h2⟩
      exact h2
    · intro h
      exact ⟨h.symm, h⟩

/-- Witness for `bitmap_little_endian`: a 2×2, 1-bit-per-pixel, all-ones
bitmap over the palette [black, red]; pixel 1's pair in the buffer is
low byte 0x00 then high byte 0xF8. -/
theorem bitmap_little_endian_witness :
    (bitmapBuffer ⟨2, 2, 1, [0, 0xF800], [0xFF]⟩ 0 4).get? (2 * 1) = some 0x00
    ∧ (bitmapBuffer ⟨2, 2, 1, [0, 0xF800], [0xFF]⟩ 0 4).get? (2 * 1 + 1) = some 0xF8
    ∧ [(0xF800 : Nat) &&& 0xFF, (0xF800 &&& 0xFF00) >>> 8] =
        (encode_pixel 0xF800).reverse := by
  have h := bitmap_little_endian ⟨2, 2, 1, [0, 0xF800], [0xFF]⟩ 0 4 1 (by norm_num)
  refine ⟨?_, ?_, (h.2.2 0xF800).1⟩
  · rw [h.1]; decide
  · rw [h.2.1]; decide
